import Mathlib

/-!
Verification of the faraday fiat-price subsystem.

Shallow embedding of the Go sources:
- `src/fiat/prices.go` (errors, `GetPrices` orchestrator, `MsatToUSD`,
  `GetPrice` point lookup),
- `src/fiat/coindesk_api.go` (`queryCoinDesk`, `parseCoinDeskData`,
  `coinDeskAPI.GetPrices`),
- the custom CSV price source (`customPrices.rawPriceData`).

Modelling conventions:
- `time.Time` instants are unix seconds as `Int`; `t1.Before(t2)` is `t1 < t2`.
- `decimal.Decimal` (shopspring) values are modelled as rationals `ℚ`.
  `Mul` and `NewFromInt` are exact in the library; `Div` rounds to
  `DivisionPrecision` (16) fractional digits, modelled by `decimalDiv`.
- `lnwire.MilliSatoshi` is `uint64`; a Go conversion `int64(amt)` wraps for
  values at or above `2^63`, made explicit below.
- Fallible Go code returns `Except Err _`.
- Effectful inputs (HTTP bodies, file contents) are passed as explicit
  arguments: a backend is a function from a time range to a fetched series,
  the CSV file is a list of records, the decoded CoinDesk JSON body is a
  list of `(date, price)` entries.
-/

set_option maxRecDepth 4000

/-- The error values of the fiat package (`prices.go` vars, the
`"incorrect csv format"` error of the custom source, the `InvalidRange`
error of `utils.ValidateTimeRange`, and `strconv`/date parse failures). -/
inductive Err where
  | noPrices
  | unknownBackend
  | priceOutOfRange
  | granularityRequired
  | invalidRange
  | malformedRecord
  | intParseFailure
  | floatParseFailure
  | dateParseFailure
deriving DecidableEq, Repr

/-- `USDPrice` from the fiat package: a timestamp (unix seconds) and a
price (decimal, modelled as ℚ). -/
structure USDPrice where
  Timestamp : Int
  Price : ℚ
deriving DecidableEq, Repr

/-- A price series sorted ascending by timestamp. -/
def sortedByTime (l : List USDPrice) : Prop :=
  List.Pairwise (fun a b => a.Timestamp ≤ b.Timestamp) l

instance (l : List USDPrice) : Decidable (sortedByTime l) := by
  unfold sortedByTime; infer_instance

/-- The scanning loop of `GetPrice` (`prices.go` lines 139-145): walk the
series, breaking at the first point whose timestamp the query is strictly
before, tracking the last point seen before the break (`lastPrice`,
`none` standing for Go's nil). -/
def getPriceLoop (timestamp : Int) :
    List USDPrice → Option USDPrice → Option USDPrice
  | [], lastPrice => lastPrice
  | price :: rest, lastPrice =>
    if timestamp < price.Timestamp then lastPrice
    else getPriceLoop timestamp rest (some price)

/-- `GetPrice` (`prices.go` lines 128-158): empty series fails with
`errNoPrices`; a scan ending with `lastPrice` still nil fails with
`errPriceOutOfRange`; otherwise the last tracked point is returned. -/
def GetPrice (prices : List USDPrice) (timestamp : Int) :
    Except Err USDPrice :=
  if prices.isEmpty then .error .noPrices
  else
    match getPriceLoop timestamp prices none with
    | none => .error .priceOutOfRange
    | some lastPrice => .ok lastPrice

/-- The Go conversion `int64(amt)` applied in `MsatToUSD` to the
`lnwire.MilliSatoshi` amount (a `uint64`): values at or above `2^63` wrap
around to negative. -/
def int64OfUInt64 (amt : ℕ) : Int :=
  if amt < 2 ^ 63 then (amt : Int) else (amt : Int) - 2 ^ 64

/-- Rounding half away from zero to an integer, as shopspring's `DivRound`
rounds: for a positive quotient a final digit 5 is rounded up, away from
zero; for a negative quotient it is rounded down, away from zero. -/
def roundHalfAway (q : ℚ) : Int :=
  if 0 ≤ q then ⌊q + 1 / 2⌋ else -⌊-q + 1 / 2⌋

/-- shopspring `Decimal.Div`: `d.DivRound(d2, int32(DivisionPrecision))`
with `DivisionPrecision = 16`, i.e. the true quotient rounded half away
from zero to an integer multiple of `10^-16`. Exact precisely when the
true quotient has at most 16 fractional decimal digits. -/
def decimalDiv (a b : ℚ) : ℚ :=
  (roundHalfAway (a / b * 10 ^ 16) : ℚ) / 10 ^ 16

/-- `MsatToUSD` (`prices.go` lines 112-120): the quoted price per whole
bitcoin is divided by 100000000000 (1 BTC = 10^8 sat = 10^11 msat) with
shopspring `Div` to get a price per millisatoshi, then multiplied
(exactly) by `decimal.NewFromInt(int64(amt))`. -/
def MsatToUSD (price : ℚ) (amt : ℕ) : ℚ :=
  let msatDecimal : ℚ := (int64OfUInt64 amt : ℚ)
  let pricePerMSat := decimalDiv price 100000000000
  pricePerMSat * msatDecimal

/-! ### Calendar dates (the `"2006-01-02"` layout of `coinDeskTimeFormat`) -/

/-- Civil (proleptic Gregorian) date of a day count since the unix epoch
(day 0 = 1970-01-01), as `(year, month, day)`. All divisions act on
non-negative operands for the epoch-and-later days used here. -/
def civilFromDays (z0 : Int) : Int × Int × Int :=
  let z := z0 + 719468
  let era := (if 0 ≤ z then z else z - 146096) / 146097
  let doe := z - era * 146097
  let yoe := (doe - doe / 1460 + doe / 36524 - doe / 146096) / 365
  let y := yoe + era * 400
  let doy := doe - (365 * yoe + yoe / 4 - yoe / 100)
  let mp := (5 * doy + 2) / 153
  let d := doy - (153 * mp + 2) / 5 + 1
  let m := mp + (if mp < 10 then 3 else -9)
  (y + (if m ≤ 2 then 1 else 0), m, d)

/-- Day count since the unix epoch of a civil (proleptic Gregorian) date. -/
def daysFromCivil (y0 m d : Int) : Int :=
  let y := y0 - (if m ≤ 2 then 1 else 0)
  let era := (if 0 ≤ y then y else y - 399) / 400
  let yoe := y - era * 400
  let doy := (153 * (m + (if 2 < m then -3 else 9)) + 2) / 5 + d - 1
  let doe := yoe * 365 + yoe / 4 - yoe / 100 + doy
  era * 146097 + doe - 719468

/-- Decimal rendering of a number padded with leading zeros to width `w`,
as Go's layout components `"2006"`, `"01"`, `"02"` render year, month, day. -/
def padNum (w : ℕ) (n : ℕ) : String :=
  let s := toString n
  if s.length < w then String.mk (List.replicate (w - s.length) '0') ++ s
  else s

/-- `t.Format(coinDeskTimeFormat)`: the `YYYY-MM-DD` date (UTC) of a
unix-seconds instant. -/
def formatCoinDeskTime (t : Int) : String :=
  let c := civilFromDays (Int.fdiv t 86400)
  padNum 4 c.1.toNat ++ "-" ++ padNum 2 c.2.1.toNat ++ "-" ++
    padNum 2 c.2.2.toNat

/-- The numeric value of a decimal digit character, `none` otherwise. -/
def digitVal (c : Char) : Option ℕ :=
  if '0' ≤ c ∧ c ≤ '9' then some (c.toNat - 48) else none

/-- Gregorian leap year. -/
def isLeapYear (y : Int) : Bool := (y % 4 = 0 ∧ y % 100 ≠ 0) ∨ y % 400 = 0

/-- Number of days in a month. -/
def daysInMonth (y m : Int) : Int :=
  if m = 2 then (if isLeapYear y then 29 else 28)
  else if m = 4 ∨ m = 6 ∨ m = 9 ∨ m = 11 then 30
  else 31

/-- `time.Parse(coinDeskTimeFormat, s)`: exactly four year digits, a dash,
two month digits, a dash, two day digits; the month must be 1..12 and the
day valid for that month and year (Go rejects out-of-range components).
Result: unix seconds of midnight UTC on that date. -/
def parseCoinDeskTime (s : String) : Option Int :=
  match s.data with
  | [y1, y2, y3, y4, c1, m1, m2, c2, d1, d2] =>
    if c1 = '-' ∧ c2 = '-' then
      match digitVal y1, digitVal y2, digitVal y3, digitVal y4,
          digitVal m1, digitVal m2, digitVal d1, digitVal d2 with
      | some a, some b, some c, some d, some e, some f, some g, some h =>
        let y : Int := ((a * 1000 + b * 100 + c * 10 + d : ℕ) : Int)
        let m : Int := ((e * 10 + f : ℕ) : Int)
        let dd : Int := ((g * 10 + h : ℕ) : Int)
        if 1 ≤ m ∧ m ≤ 12 ∧ 1 ≤ dd ∧ dd ≤ daysInMonth y m then
          some (daysFromCivil y m dd * 86400)
        else none
      | _, _, _, _, _, _, _, _ => none
    else none
  | _ => none

/-! ### CoinDesk source (`coindesk_api.go`) -/

/-- `parseCoinDeskData` (`coindesk_api.go` lines 51-72), applied to a
decoded response body: the JSON `bpi` object is modelled as the list of its
`(date string, price)` entries (float prices as exact rationals; JSON
encoding and decoding of such a map is the identity on these entries).
Each date is parsed with the `coinDeskTimeFormat` layout; any date parse
failure aborts the whole parse. -/
def parseCoinDeskData : List (String × ℚ) → Except Err (List USDPrice)
  | [] => .ok []
  | (date, price) :: rest =>
    match parseCoinDeskTime date with
    | none => .error .dateParseFailure
    | some timestamp =>
      match parseCoinDeskData rest with
      | .error e => .error e
      | .ok usdRecords =>
        .ok ({ Timestamp := timestamp, Price := price } :: usdRecords)

/-- Modelled from the spec: `utils.ValidateTimeRange(start, end,
utils.DisallowFutureRange)` - the `utils` package is not among the provided
sources. Spec §4.1: sources "must validate that start ≤ end and that the
requested range does not extend into the future relative to current time;
violation fails with an InvalidRange error". `now` is the current time. -/
def validateTimeRange (start endT now : Int) : Except Err Unit :=
  if start ≤ endT ∧ endT ≤ now then .ok () else .error .invalidRange

/-- The two query parameters of the CoinDesk HTTP GET. -/
structure CoinDeskQuery where
  startParam : String
  endParam : String
deriving DecidableEq, Repr

/-- `queryCoinDesk` (`coindesk_api.go` lines 33-47): the `start` and `end`
parameters of the issued HTTP GET, both formatted with
`coinDeskTimeFormat`. -/
def queryCoinDesk (start endT : Int) : CoinDeskQuery :=
  { startParam := formatCoinDeskTime start
    endParam := formatCoinDeskTime endT }

/-- The HTTP query `coinDeskAPI.GetPrices` (`coindesk_api.go` lines 76-98)
issues: after range validation the method reassigns
`start = start.Add(time.Hour * -24)` before `retryQuery` invokes the
`query` closure; the closure captures the variable `start` itself (Go
closures capture variables, not values), so the issued request uses the
backdated start while `end` is unchanged. -/
def coinDeskIssuedQuery (now start endT : Int) : Except Err CoinDeskQuery :=
  match validateTimeRange start endT now with
  | .error e => .error e
  | .ok _ => .ok (queryCoinDesk (start - 86400) endT)

/-- `coinDeskAPI.GetPrices` (`coindesk_api.go` lines 76-113) with the HTTP
effect made explicit: `entries` is the decoded body returned for the
(backdated) query. `retryQuery` (not among the provided sources; spec §4.2
describes it as fetch-then-parse with bounded retry, surfacing the last
error unchanged) is on its success path `parseCoinDeskData` applied to the
fetched body. The parsed records are then stably re-sorted ascending by
timestamp (`sort.SliceStable`, lines 106-110). -/
def coinDeskGetPrices (now start endT : Int) (entries : List (String × ℚ)) :
    Except Err (List USDPrice) :=
  match validateTimeRange start endT now with
  | .error e => .error e
  | .ok _ =>
    match parseCoinDeskData entries with
    | .error e => .error e
    | .ok records =>
      .ok (records.mergeSort (fun a b => a.Timestamp ≤ b.Timestamp))

/-! ### Custom CSV source (`customPrices.rawPriceData`) -/

/-- `Price` of the custom file source: a timestamp, a decimal price and a
currency code. -/
structure Price where
  Timestamp : Int
  Price : ℚ
  Currency : String
deriving DecidableEq, Repr

/-- Digit run to value, `none` on a non-digit; the empty run yields the
accumulator. -/
def digitsToNatAux : List Char → ℕ → Option ℕ
  | [], acc => some acc
  | c :: rest, acc =>
    match digitVal c with
    | none => none
    | some d => digitsToNatAux rest (acc * 10 + d)

/-- A non-empty all-digit run to its value. -/
def digitsToNat : List Char → Option ℕ
  | [] => none
  | cs => digitsToNatAux cs 0

/-- Go `strconv.ParseInt(s, 10, 64)`: an optional sign followed by one or
more base-10 digits and nothing else; values outside the `int64` range
fail. -/
def parseInt64 (s : String) : Option Int :=
  let signAndDigits : Bool × List Char :=
    match s.data with
    | '-' :: rest => (true, rest)
    | '+' :: rest => (false, rest)
    | cs => (false, cs)
  match digitsToNat signAndDigits.2 with
  | none => none
  | some n =>
    let v : Int := if signAndDigits.1 then -(n : Int) else (n : Int)
    if -(2 ^ 63) ≤ v ∧ v < 2 ^ 63 then some v else none

/-- Lower-case an ASCII letter, as strconv's `lower`. -/
def lowerChar (c : Char) : Char :=
  if 'A' ≤ c ∧ c ≤ 'Z' then Char.ofNat (c.toNat + 32) else c

/-- Lower-case a character run. -/
def lowerStr (cs : List Char) : List Char := cs.map lowerChar

/-- ASCII decimal digit. -/
def isDigitChar (c : Char) : Bool := '0' ≤ c ∧ c ≤ '9'

/-- ASCII hexadecimal digit. -/
def isHexDigitChar (c : Char) : Bool :=
  isDigitChar c ∨ ('a' ≤ lowerChar c ∧ lowerChar c ≤ 'f')

/-- Value of a hexadecimal digit. -/
def hexVal (c : Char) : ℕ :=
  if isDigitChar c then c.toNat - 48 else (lowerChar c).toNat - 87

/-- The scanning loop of strconv's `underscoreOK`: `saw` is `'^'` at the
start of the number, `'0'` after a digit (the base prefix counts as a
digit), `'_'` after an underscore and `'!'` after any other character; an
underscore must both follow and be followed by a digit. -/
def underscoreOKAux (hex : Bool) : List Char → Char → Bool
  | [], saw => saw ≠ '_'
  | c :: rest, saw =>
    if isDigitChar c ∨ (hex ∧ 'a' ≤ lowerChar c ∧ lowerChar c ≤ 'f') then
      underscoreOKAux hex rest '0'
    else if c = '_' then
      if saw = '0' then underscoreOKAux hex rest '_' else false
    else if saw = '_' then false
    else underscoreOKAux hex rest '!'

/-- strconv's `underscoreOK`: the underscores of a numeric literal must sit
between digits, the optional sign and base prefix counting as digits. Go
validates this for `ParseFloat` inputs containing underscores; it holds
vacuously for inputs without any. -/
def underscoreOK (s : String) : Bool :=
  let cs := match s.data with
    | '+' :: rest => rest
    | '-' :: rest => rest
    | rest => rest
  match cs with
  | '0' :: x :: rest =>
    if lowerChar x = 'b' ∨ lowerChar x = 'o' ∨ lowerChar x = 'x' then
      underscoreOKAux (lowerChar x = 'x') rest '0'
    else underscoreOKAux false cs '^'
  | _ => underscoreOKAux false cs '^'

/-- Drop the underscores of a literal; they are pure digit separators once
`underscoreOK` has validated their placement. -/
def stripUnderscores (cs : List Char) : List Char :=
  cs.filter (fun c => c ≠ '_')

/-- Split a character run at the first character satisfying `p`, if any. -/
def splitAtPred (p : Char → Bool) : List Char → List Char × Option (List Char)
  | [] => ([], none)
  | c :: rest =>
    if p c then ([], some rest)
    else
      let q := splitAtPred p rest
      (c :: q.1, q.2)

/-- Hexadecimal digit run to value, `none` on a non-hex-digit; the empty
run yields the accumulator. -/
def hexDigitsValAux : List Char → ℕ → Option ℕ
  | [], acc => some acc
  | c :: rest, acc =>
    if isHexDigitChar c then hexDigitsValAux rest (acc * 16 + hexVal c)
    else none

/-- A decimal mantissa, digits with at most one dot and at least one digit:
`(value of all digits, number of fractional digits)`; the mantissa's value
is `fst * 10 ^ (-snd)`. -/
def parseDecMantissa (cs : List Char) : Option (ℕ × ℕ) :=
  let q := splitAtPred (fun c => c = '.') cs
  match q.2 with
  | none =>
    match digitsToNat q.1 with
    | some n => some (n, 0)
    | none => none
  | some f =>
    if q.1.isEmpty ∧ f.isEmpty then none
    else
      match digitsToNatAux q.1 0, digitsToNatAux f 0 with
      | some n, some m2 => some (n * 10 ^ f.length + m2, f.length)
      | _, _ => none

/-- A hexadecimal mantissa, as `parseDecMantissa`; the mantissa's value is
`fst * 16 ^ (-snd)`. -/
def parseHexMantissa (cs : List Char) : Option (ℕ × ℕ) :=
  let q := splitAtPred (fun c => c = '.') cs
  match q.2 with
  | none =>
    if q.1.isEmpty then none
    else
      match hexDigitsValAux q.1 0 with
      | some n => some (n, 0)
      | none => none
  | some f =>
    if q.1.isEmpty ∧ f.isEmpty then none
    else
      match hexDigitsValAux q.1 0, hexDigitsValAux f 0 with
      | some n, some m2 => some (n * 16 ^ f.length + m2, f.length)
      | _, _ => none

/-- An exponent part: an optional sign, then at least one decimal digit. -/
def parseExpPart (cs : List Char) : Option Int :=
  let sd : Bool × List Char := match cs with
    | '+' :: rest => (false, rest)
    | '-' :: rest => (true, rest)
    | rest => (false, rest)
  match digitsToNat sd.2 with
  | none => none
  | some n => some (if sd.1 then -(n : Int) else (n : Int))

/-- Whether the decimal `m * b ^ E` converts to binary64 without a strconv
range error. Correctly rounded to nearest-even, the result is 0
(`ErrRange`) iff the nonzero magnitude is at most `2^-1075` (half the
smallest subnormal, the tie rounding to the even 0), and `±Inf`
(`ErrRange`) iff it is at least `2^1024 - 2^970` (the largest finite
float64 `2^1024 - 2^971` plus half an ulp, the tie rounding to the even
`2^1024`). Zero converts exactly. -/
def rangeOKScaled (m : ℕ) (b : ℕ) (E : Int) : Bool :=
  if m = 0 then true
  else
    (if 0 ≤ E then true else decide (b ^ (-E).toNat < 2 ^ 1075 * m)) &&
    (if 0 ≤ E then decide (m * b ^ E.toNat < 2 ^ 1024 - 2 ^ 970)
     else decide (m < (2 ^ 1024 - 2 ^ 970) * b ^ (-E).toNat))

/-- Outcome of a successful Go `strconv.ParseFloat(s, 64)`: a finite value,
or an IEEE special - `±Inf` or `NaN`, on which `decimal.NewFromFloat` then
panics rather than returning. -/
inductive GoFloat where
  | finite (v : ℚ)
  | special
deriving DecidableEq

/-- Package a signed scaled mantissa, failing on a float64 range error. The
finite value is kept as the literal's exact rational; Go rounds it to the
nearest binary64 and `decimal.NewFromFloat` re-reads that float's shortest
decimal digits. No theorem below depends on the value of a parsed price,
only on parse success or failure. -/
def finiteOfScaled (sign : ℚ) (m : ℕ) (b : ℕ) (E : Int) : Option GoFloat :=
  if rangeOKScaled m b E then
    some (GoFloat.finite (sign * (m : ℚ) * (b : ℚ) ^ E))
  else none

/-- The decimal branch of strconv's `readFloat`: mantissa, then an optional
`e`/`E` exponent with an optional sign and at least one digit. -/
def decFloatOf (sign : ℚ) (body : List Char) : Option GoFloat :=
  let q := splitAtPred (fun c => lowerChar c = 'e') body
  let e0 : Option Int :=
    match q.2 with
    | none => some 0
    | some ex => parseExpPart ex
  match parseDecMantissa q.1, e0 with
  | some mk, some e => finiteOfScaled sign mk.1 10 (e - (mk.2 : Int))
  | _, _ => none

/-- Go `strconv.ParseFloat(s, 64)`, as the custom source calls it on a
price field; `none` is a parse or range error. Per strconv it accepts: the
case-insensitive specials `nan` (unsigned) and `inf`/`infinity`
(optionally signed); otherwise an optional sign followed by a decimal
literal (digits, at most one dot, optional `e` exponent) or a hexadecimal
literal (`0x` prefix, hex digits, at most one dot, mandatory `p`
exponent), with underscores permitted between digits (`underscoreOK`).
A syntactically valid literal whose magnitude rounds to zero or overflows
binary64 fails with `ErrRange`. -/
def parseGoFloat (s : String) : Option GoFloat :=
  let cs := s.data
  if lowerStr cs = "nan".data then some GoFloat.special
  else
    let sgn : ℚ × List Char := match cs with
      | '+' :: rest => (1, rest)
      | '-' :: rest => (-1, rest)
      | rest => (1, rest)
    if lowerStr sgn.2 = "inf".data ∨ lowerStr sgn.2 = "infinity".data then
      some GoFloat.special
    else if underscoreOK s = false then none
    else
      match stripUnderscores sgn.2 with
      | '0' :: x :: rest =>
        if lowerChar x = 'x' then
          let q := splitAtPred (fun c => lowerChar c = 'p') rest
          match q.2 with
          | none => none
          | some ex =>
            match parseHexMantissa q.1, parseExpPart ex with
            | some mk, some p =>
              finiteOfScaled sgn.1 mk.1 2 (p - 4 * (mk.2 : Int))
            | _, _ => none
        else decFloatOf sgn.1 ('0' :: x :: rest)
      | body => decFloatOf sgn.1 body

/-- The custom source's price-field parse, `strconv.ParseFloat(s, 64)` then
`decimal.NewFromFloat`: the finite parsed value, `none` on a parse or range
error. A string parsing to an IEEE special makes the Go program panic
inside `decimal.NewFromFloat` instead of returning; the model maps it to
`none`, and each theorem below that constrains behaviour at a parsed price
field excludes specials by hypothesis (`lineParses`, `lineFails`,
`parseGoFloat _ = none`). -/
def parseFloatQ (s : String) : Option ℚ :=
  match parseGoFloat s with
  | some (GoFloat.finite v) => some v
  | _ => none

/-- The parsing loop of `customPrices.rawPriceData` (custom source file,
lines 52-76): a record must be exactly two fields, else the read fails with
the `"incorrect csv format"` error; the first field parses with
`strconv.ParseInt(_, 10, 64)` into `time.Unix(timestamp, 0)`, the second
with `strconv.ParseFloat(_, 64)` into a decimal; the first failure aborts
the whole read. -/
def parsePriceLines (currency : String) :
    List (List String) → Except Err (List Price)
  | [] => .ok []
  | line :: rest =>
    match line with
    | [tsField, priceField] =>
      match parseInt64 tsField with
      | none => .error .intParseFailure
      | some timestamp =>
        match parseFloatQ priceField with
        | none => .error .floatParseFailure
        | some price =>
          match parsePriceLines currency rest with
          | .error e => .error e
          | .ok prices =>
            .ok ({ Timestamp := timestamp, Price := price,
                   Currency := currency } :: prices)
    | _ => .error .malformedRecord

/-- `customPrices.rawPriceData` (custom source file, lines 44-77): the
context and both time arguments are blank identifiers in the source and
unused; `csvLines` is what `c.getData(c.csvPath)` returned. -/
def rawPriceData (currency : String) (csvLines : List (List String))
    (_startTime _endTime : Int) : Except Err (List Price) :=
  parsePriceLines currency csvLines

/-- A constructed price backend (`PriceAPIBackend.GetPrices`) with its
HTTP/file effect resolved: a function from the queried `(start, end)` range
to the series it returns. -/
abbrev Backend := Int → Int → Except Err (List USDPrice)

/-- The stable ascending sort of the timestamps (`sort.SliceStable` with
`timestamps[i].Before(timestamps[j])`, `prices.go` lines 77-79; a stable
sort by the strict order `<` coincides with a stable merge sort by `≤`). -/
def sortTimestamps (timestamps : List Int) : List Int :=
  timestamps.mergeSort (fun a b => a ≤ b)

/-- The lookup loop of `GetPrices` (`prices.go` lines 98-105): resolve
every timestamp against the fetched series with `GetPrice`; any failure
aborts. The produced `timestamp → price` map is modelled as the
association list in iteration order (duplicate timestamps write the same
price twice, as in the Go map). -/
def lookupAll (priceData : List USDPrice) :
    List Int → Except Err (List (Int × USDPrice))
  | [] => .ok []
  | ts :: rest =>
    match GetPrice priceData ts with
    | .error e => .error e
    | .ok price =>
      match lookupAll priceData rest with
      | .error e => .error e
      | .ok prices => .ok ((ts, price) :: prices)

/-- The non-empty path of `GetPrices` (`prices.go` lines 73-107) given the
already-sorted timestamps: construct the backend (`NewPriceAPIBackend`,
whose possible failures the `mkBackend` argument carries), fetch the
series once for the span `(first, last)` of the sorted timestamps, and
resolve every timestamp. -/
def fiatGetPricesResult (mkBackend : Except Err Backend)
    (sortedTs : List Int) : Except Err (List (Int × USDPrice)) :=
  match mkBackend with
  | .error e => .error e
  | .ok client =>
    match client (sortedTs.headD 0) (sortedTs.getLastD 0) with
    | .error e => .error e
    | .ok priceData => lookupAll priceData sortedTs

/-- `GetPrices` (`prices.go` lines 65-108). The pair returned is
`(result, final contents of the caller's timestamps slice)`:
`sort.SliceStable` mutates the caller's slice in place, which the explicit
second component models. An empty timestamp list returns `(nil, nil)`
before anything else happens - no sort, no backend construction, no
fetch. -/
def fiatGetPrices (mkBackend : Except Err Backend) (timestamps : List Int) :
    Except Err (List (Int × USDPrice)) × List Int :=
  if timestamps.isEmpty then (.ok [], timestamps)
  else
    let sortedTs := sortTimestamps timestamps
    (fiatGetPricesResult mkBackend sortedTs, sortedTs)

/-- The series `GetPrices` (`prices.go` lines 90-99) hands to every
`GetPrice` lookup: exactly the `priceData` the backend's fetch returned,
with no processing between fetch and lookups (`.ok []` for an empty
timestamp list, where no lookups occur). -/
def getPricesLookupSeries (client : Backend) (timestamps : List Int) :
    Except Err (List USDPrice) :=
  if timestamps.isEmpty then .ok []
  else
    let sortedTs := sortTimestamps timestamps
    client (sortedTs.headD 0) (sortedTs.getLastD 0)

/-! ## Theorems -/

/-- Loop invariant: starting the scan with a tracked point `a` whose
timestamp is at or before the query, the loop yields a point that is `a`
or lies in the remaining series, is at or before the query, and is a
latest such point of the remaining series. -/
theorem getPriceLoop_spec (t : Int) (S : List USDPrice) (a : USDPrice)
    (hs : sortedByTime S) (ha : a.Timestamp ≤ t) :
    ∃ p, getPriceLoop t S (some a) = some p ∧ (p = a ∨ p ∈ S) ∧
      p.Timestamp ≤ t ∧
      ∀ q ∈ S, q.Timestamp ≤ t → q.Timestamp ≤ p.Timestamp := by
  induction S generalizing a with
  | nil => exact ⟨a, rfl, Or.inl rfl, ha, by simp⟩
  | cons p0 rest ih =>
    rw [sortedByTime, List.pairwise_cons] at hs
    obtain ⟨hp0, hrest⟩ := hs
    by_cases hlt : t < p0.Timestamp
    · refine ⟨a, by simp [getPriceLoop, hlt], Or.inl rfl, ha, ?_⟩
      intro q hq hqt
      rcases List.mem_cons.mp hq with rfl | hq
      · omega
      · have := hp0 q hq; omega
    · push_neg at hlt
      obtain ⟨p, hloop, hmem, hpt, hmax⟩ := ih p0 hrest hlt
      refine ⟨p, by simp [getPriceLoop, not_lt.mpr hlt, hloop], ?_, hpt, ?_⟩
      · rcases hmem with rfl | h
        · exact Or.inr (List.mem_cons_self _ _)
        · exact Or.inr (List.mem_cons_of_mem _ h)
      · intro q hq hqt
        rcases List.mem_cons.mp hq with rfl | hq
        · rcases hmem with rfl | h
          · omega
          · have := hp0 p h; omega
        · exact hmax q hq hqt

/-- C1: for every non-empty price series sorted ascending by timestamp and
every query timestamp at or after the first point's timestamp, `GetPrice`
returns a point of the series whose timestamp is at or before the query and
is latest among such points; in particular a query exactly equal to a series
point's timestamp returns a point with exactly that timestamp. -/
theorem C1_getPrice_last_before_or_equal (p0 : USDPrice)
    (rest : List USDPrice) (t : Int) (hs : sortedByTime (p0 :: rest))
    (ht : p0.Timestamp ≤ t) :
    ∃ p, GetPrice (p0 :: rest) t = .ok p ∧ p ∈ p0 :: rest ∧
      p.Timestamp ≤ t ∧
      (∀ q ∈ p0 :: rest, q.Timestamp ≤ t → q.Timestamp ≤ p.Timestamp) ∧
      (∀ q ∈ p0 :: rest, q.Timestamp = t → p.Timestamp = t) := by
  rw [sortedByTime, List.pairwise_cons] at hs
  obtain ⟨hp0, hrest⟩ := hs
  obtain ⟨p, hloop, hmem, hpt, hmax⟩ := getPriceLoop_spec t rest p0 hrest ht
  have hp0p : p0.Timestamp ≤ p.Timestamp := by
    rcases hmem with rfl | h
    · exact le_refl _
    · exact hp0 p h
  have hmem' : p ∈ p0 :: rest := by
    rcases hmem with rfl | h
    · exact List.mem_cons_self _ _
    · exact List.mem_cons_of_mem _ h
  have hmax' : ∀ q ∈ p0 :: rest, q.Timestamp ≤ t → q.Timestamp ≤ p.Timestamp := by
    intro q hq hqt
    rcases List.mem_cons.mp hq with rfl | hq
    · exact hp0p
    · exact hmax q hq hqt
  refine ⟨p, ?_, hmem', hpt, hmax', ?_⟩
  · simp [GetPrice, getPriceLoop, not_lt.mpr ht, hloop]
  · intro q hq hqt
    have h1 : q.Timestamp ≤ p.Timestamp := hmax' q hq (le_of_eq hqt)
    omega

/-- C1 witness: on the concrete sorted series `[(1, 5), (3, 6)]` with query
timestamp 3, the theorem instantiates and all hypotheses are discharged. -/
theorem C1_witness :
    ∃ p, GetPrice [⟨1, 5⟩, ⟨3, 6⟩] 3 = .ok p ∧
      p ∈ [(⟨1, 5⟩ : USDPrice), ⟨3, 6⟩] ∧ p.Timestamp ≤ 3 ∧
      (∀ q ∈ [(⟨1, 5⟩ : USDPrice), ⟨3, 6⟩], q.Timestamp ≤ 3 →
        q.Timestamp ≤ p.Timestamp) ∧
      (∀ q ∈ [(⟨1, 5⟩ : USDPrice), ⟨3, 6⟩], q.Timestamp = 3 →
        p.Timestamp = 3) :=
  C1_getPrice_last_before_or_equal ⟨1, 5⟩ [⟨3, 6⟩] 3 (by decide) (by decide)

/-- C3: `GetPrice` fails exactly in two cases: on an empty series with the
no-price-data error for every timestamp; on a non-empty ascending series with
the out-of-range error whenever the query is strictly before the first
point's timestamp; and it succeeds in every other case on a sorted series. -/
theorem C3_getPrice_error_classification :
    (∀ t : Int, GetPrice [] t = .error .noPrices) ∧
    (∀ (p0 : USDPrice) (rest : List USDPrice) (t : Int),
      sortedByTime (p0 :: rest) → t < p0.Timestamp →
      GetPrice (p0 :: rest) t = .error .priceOutOfRange) ∧
    (∀ (p0 : USDPrice) (rest : List USDPrice) (t : Int),
      sortedByTime (p0 :: rest) → p0.Timestamp ≤ t →
      ∃ p, GetPrice (p0 :: rest) t = .ok p) := by
  refine ⟨fun t => rfl, ?_, ?_⟩
  · intro p0 rest t _ hlt
    simp [GetPrice, getPriceLoop, hlt]
  · intro p0 rest t hs ht
    rw [sortedByTime, List.pairwise_cons] at hs
    obtain ⟨p, hloop, _, _, _⟩ := getPriceLoop_spec t rest p0 hs.2 ht
    exact ⟨p, by simp [GetPrice, getPriceLoop, not_lt.mpr ht, hloop]⟩

/-- C3 witness: the three cases at concrete inputs - empty series, query
before the series start, and query at the series start. -/
theorem C3_witness :
    GetPrice [] 5 = .error .noPrices ∧
    GetPrice [⟨10, 1⟩] 3 = .error .priceOutOfRange ∧
    ∃ p, GetPrice [⟨10, 1⟩] 10 = .ok p :=
  ⟨C3_getPrice_error_classification.1 5,
    C3_getPrice_error_classification.2.1 ⟨10, 1⟩ [] 3 (by decide) (by decide),
    C3_getPrice_error_classification.2.2 ⟨10, 1⟩ [] 10 (by decide) (by decide)⟩

/-- Helper: rounding half away from zero fixes every integer. -/
theorem roundHalfAway_intCast (n : Int) : roundHalfAway (n : ℚ) = n := by
  unfold roundHalfAway
  have h12 : ⌊(1 : ℚ) / 2⌋ = 0 :=
    Int.floor_eq_zero_iff.mpr (Set.mem_Ico.mpr ⟨by norm_num, by norm_num⟩)
  by_cases h : (0 : ℚ) ≤ (n : ℚ)
  · rw [if_pos h, Int.floor_int_add, h12, add_zero]
  · rw [if_neg h]
    have hneg : -(n : ℚ) = ((-n : Int) : ℚ) := by push_cast; ring
    rw [hneg, Int.floor_int_add, h12, add_zero, neg_neg]

/-- Helper: shopspring division is exact whenever the true quotient has at
most 16 fractional decimal digits. -/
theorem decimalDiv_exact (a b : ℚ) (n : Int)
    (h : a / b * 10 ^ 16 = (n : ℚ)) : decimalDiv a b = a / b := by
  unfold decimalDiv
  rw [h, roundHalfAway_intCast, ← h]
  ring

/-- C4 counterexample: the result is not `price / 10^11 * amt` in general,
on two counts. For the amount `2^63` (a valid `uint64` millisatoshi value)
the Go conversion `int64(amt)` wraps to `-(2^63)`. And for the six-digit
decimal price `0.000001`, whose quotient by `10^11` needs 17 fractional
digits, shopspring `Div` rounds half away from zero at its 16-digit
division precision and the program returns 0 instead of `10^-17`. -/
theorem C4_counterexample :
    MsatToUSD 20000 (2 ^ 63) ≠ 20000 / 10 ^ 11 * 2 ^ 63 ∧
    MsatToUSD (1 / 10 ^ 6) 1 ≠ 1 / 10 ^ 6 / 10 ^ 11 * 1 := by
  constructor
  · have hdiv : decimalDiv 20000 100000000000 =
        (20000 : ℚ) / 100000000000 :=
      decimalDiv_exact 20000 100000000000 2000000000 (by norm_num)
    have h : int64OfUInt64 (2 ^ 63) = -(2 ^ 63) := by
      norm_num [int64OfUInt64]
    simp only [MsatToUSD, hdiv, h]
    push_cast
    norm_num
  · have h1 : (1 : ℚ) / 10 ^ 6 / 100000000000 * 10 ^ 16 = 1 / 10 := by
      norm_num
    have h2 : roundHalfAway (1 / 10) = 0 := by
      unfold roundHalfAway
      rw [if_pos (by norm_num)]
      rw [show (1 : ℚ) / 10 + 1 / 2 = 3 / 5 by norm_num]
      exact Int.floor_eq_zero_iff.mpr (Set.mem_Ico.mpr ⟨by norm_num, by norm_num⟩)
    simp only [MsatToUSD, decimalDiv, h1, h2, int64OfUInt64]
    norm_num

/-- C4 amended: `MsatToUSD(price, amt)` equals `price / 10^11 * amt`
exactly for every price with at most 5 fractional decimal digits (so that
the quotient by `10^11` fits shopspring `Div`'s 16-fractional-digit
division precision and no rounding occurs) and every amount below `2^63`;
for such prices and amounts in `[2^63, 2^64)` the `uint64 → int64`
conversion wraps and the result is `price / 10^11 * (amt - 2^64)`. For
prices with more fractional digits `Div` rounds the per-millisatoshi price
half away from zero at 16 fractional digits. -/
theorem C4_msatToUSD_exact (price : ℚ) (amt : ℕ) (n : Int)
    (hp : price * 10 ^ 5 = (n : ℚ)) :
    (amt < 2 ^ 63 → MsatToUSD price amt = price / 10 ^ 11 * amt) ∧
    (2 ^ 63 ≤ amt → amt < 2 ^ 64 →
      MsatToUSD price amt = price / 10 ^ 11 * ((amt : ℚ) - 2 ^ 64)) := by
  have hdiv : decimalDiv price 100000000000 = price / 100000000000 := by
    apply decimalDiv_exact price 100000000000 n
    rw [← hp]
    ring
  constructor
  · intro h
    simp only [MsatToUSD, hdiv, int64OfUInt64, if_pos h]
    push_cast
    ring_nf
  · intro h1 _
    simp only [MsatToUSD, hdiv, int64OfUInt64, if_neg (not_lt.mpr h1)]
    push_cast
    ring_nf

/-- C4 witness: the spec's example `MsatToUSD(20000, 100000) =
20000 / 10^11 * 100000` exactly, and the wrap case at `2^63 + 1`. -/
theorem C4_witness :
    MsatToUSD 20000 100000 = 20000 / 10 ^ 11 * 100000 ∧
    MsatToUSD 20000 (2 ^ 63 + 1) =
      20000 / 10 ^ 11 * (((2 ^ 63 + 1 : ℕ) : ℚ) - 2 ^ 64) := by
  constructor
  · have h := (C4_msatToUSD_exact 20000 100000 2000000000 (by norm_num)).1
      (by norm_num)
    simpa using h
  · exact (C4_msatToUSD_exact 20000 (2 ^ 63 + 1) 2000000000 (by norm_num)).2
      (by norm_num) (by norm_num)

/-- C6: for every current time and every valid requested range, the CoinDesk
source issues its HTTP query with the requested start backdated by one day
(start minus 24 hours, formatted as a calendar date) while the end is
unchanged. -/
theorem C6_coindesk_backdates_start (now start endT : Int)
    (h1 : start ≤ endT) (h2 : endT ≤ now) :
    coinDeskIssuedQuery now start endT =
      .ok { startParam := formatCoinDeskTime (start - 86400)
            endParam := formatCoinDeskTime endT } := by
  simp [coinDeskIssuedQuery, validateTimeRange, h1, h2, queryCoinDesk]

/-- C6 witness: a request for 2021-04-16 through 2021-04-17 (current time
2021-04-18) is issued as `start=2021-04-15&end=2021-04-17`. -/
theorem C6_witness :
    coinDeskIssuedQuery 1618704000 1618531200 1618617600 =
      .ok { startParam := "2021-04-15", endParam := "2021-04-17" } := by
  rw [C6_coindesk_backdates_start 1618704000 1618531200 1618617600
    (by decide) (by decide)]
  rfl

/-- C7: the orchestrator `GetPrices` with an empty timestamp list returns an
empty mapping and no error, for every backend constructor - including one
whose construction or fetch would fail - without constructing a backend or
fetching anything, and without touching the timestamps slice. (The backend
selector, granularity and context are folded into `mkBackend`, which the
statement quantifies over.) -/
theorem C7_empty_timestamps_empty_result (mkBackend : Except Err Backend) :
    fiatGetPrices mkBackend [] = (.ok [], []) := rfl

/-- Helper: a stable merge sort by timestamp yields an ascending series. -/
theorem mergeSortByTime_sorted (records : List USDPrice) :
    sortedByTime (records.mergeSort (fun a b => a.Timestamp ≤ b.Timestamp)) := by
  refine List.Pairwise.imp ?_ (List.sorted_mergeSort ?_ ?_ records)
  · intro a b h
    simpa using h
  · intro a b c hab hbc
    simp only [decide_eq_true_eq] at *
    omega
  · intro a b
    simp only [Bool.or_eq_true, decide_eq_true_eq]
    omega

/-- Helper: the stable merge sort of the timestamps is ascending. -/
theorem sortTimestamps_sorted (ts : List Int) :
    List.Sorted (· ≤ ·) (sortTimestamps ts) := by
  unfold sortTimestamps
  refine List.Pairwise.imp ?_ (List.sorted_mergeSort ?_ ?_ ts)
  · intro a b h
    simpa using h
  · intro a b c hab hbc
    simp only [decide_eq_true_eq] at *
    omega
  · intro a b
    simp only [Bool.or_eq_true, decide_eq_true_eq]
    omega

/-- C2 counterexample: a backend returning a non-ascending series. The
orchestrator hands exactly that series to the lookups, so the series handed
to the lookup algorithm is not sorted: the orchestrator itself does not
re-sort. -/
theorem C2_counterexample :
    getPricesLookupSeries (fun _ _ => .ok [⟨10, 1⟩, ⟨5, 2⟩]) [7] =
      .ok [⟨10, 1⟩, ⟨5, 2⟩] ∧
    ¬ sortedByTime [⟨10, 1⟩, ⟨5, 2⟩] :=
  ⟨rfl, by decide⟩

/-- C2 amended: the orchestrator passes the fetched series to the lookup
algorithm unchanged - for a non-empty timestamp list the series handed to
every lookup is exactly what the backend's fetch returned for some span;
the defensive re-sort lives inside the CoinDesk source instead, whose
returned series is always sorted ascending by timestamp. -/
theorem C2_passthrough_and_source_sorts :
    (∀ (client : Backend) (t : Int) (ts : List Int),
      ∃ s e, getPricesLookupSeries client (t :: ts) = client s e) ∧
    (∀ (now start endT : Int) (entries : List (String × ℚ))
        (series : List USDPrice),
      coinDeskGetPrices now start endT entries = .ok series →
      sortedByTime series) := by
  constructor
  · intro client t ts
    exact ⟨_, _, rfl⟩
  · intro now start endT entries series h
    unfold coinDeskGetPrices at h
    cases hv : validateTimeRange start endT now with
    | error e => rw [hv] at h; cases h
    | ok u =>
      rw [hv] at h
      cases hp : parseCoinDeskData entries with
      | error e => rw [hp] at h; cases h
      | ok records =>
        rw [hp] at h
        obtain rfl := Except.ok.inj h
        exact mergeSortByTime_sorted records

/-- C2 amended witness: the passthrough at a concrete backend and timestamp
list, and the CoinDesk source's sortedness at a concrete query and response
body. -/
theorem C2_witness :
    (∃ _s _e : Int,
      getPricesLookupSeries (fun _ _ => Except.ok ([] : List USDPrice)) [3] =
        Except.ok []) ∧
    sortedByTime [⟨1618531200, 10.1⟩] :=
  ⟨C2_passthrough_and_source_sorts.1 (fun _ _ => Except.ok []) 3 [],
   C2_passthrough_and_source_sorts.2 1618704000 1618531200 1618617600
    [("2021-04-16", 10.1)] [⟨1618531200, 10.1⟩] (by
      unfold coinDeskGetPrices
      rw [show validateTimeRange 1618531200 1618617600 1618704000 =
        .ok () from rfl]
      rw [show parseCoinDeskData [("2021-04-16", (10.1 : ℚ))] =
        .ok [⟨1618531200, 10.1⟩] from rfl]
      simp)⟩

/-- Helper: the final state of the caller's timestamps slice after
`GetPrices`: untouched when empty, else the stable ascending sort. -/
theorem fiatGetPrices_snd (mkBackend : Except Err Backend)
    (timestamps : List Int) :
    (fiatGetPrices mkBackend timestamps).2 =
      if timestamps.isEmpty then timestamps else sortTimestamps timestamps := by
  by_cases h : timestamps.isEmpty <;> simp [fiatGetPrices, h]

/-- C9: the orchestrator sorts the caller-supplied timestamps slice in
place - after any call, for any backend, the caller's slice holds a
permutation of its original contents in ascending order. -/
theorem C9_sorts_timestamps_in_place (mkBackend : Except Err Backend)
    (timestamps : List Int) :
    ((fiatGetPrices mkBackend timestamps).2).Perm timestamps ∧
    List.Sorted (· ≤ ·) (fiatGetPrices mkBackend timestamps).2 := by
  rw [fiatGetPrices_snd]
  by_cases h : timestamps.isEmpty
  · rw [if_pos h]
    rw [List.isEmpty_iff] at h
    subst h
    exact ⟨List.Perm.refl _, List.sorted_nil⟩
  · rw [if_neg h]
    exact ⟨List.mergeSort_perm timestamps _, sortTimestamps_sorted timestamps⟩

/-- C8: parsing a decoded CoinDesk response whose dates are all well-formed
yields exactly one price point per entry, whose timestamp is the date parsed
with the `YYYY-MM-DD` calendar layout and whose price equals the source
value exactly. -/
theorem C8_parse_coindesk_pointwise (entries : List (String × ℚ))
    (h : ∀ e ∈ entries, (parseCoinDeskTime e.1).isSome) :
    parseCoinDeskData entries =
      .ok (entries.map (fun e =>
        { Timestamp := (parseCoinDeskTime e.1).getD 0, Price := e.2 })) := by
  induction entries with
  | nil => rfl
  | cons e rest ih =>
    obtain ⟨t, ht⟩ :=
      Option.isSome_iff_exists.mp (h e (List.mem_cons_self _ _))
    have hrest := ih (fun x hx => h x (List.mem_cons_of_mem _ hx))
    obtain ⟨date, price⟩ := e
    simp only [parseCoinDeskData, ht, hrest, List.map_cons]
    simp [ht]

/-- C8 witness: the spec's example - entries `"2021-04-16" → 10.1` and
`"2021-04-17" → 10000` parse to points at those calendar dates (unix
seconds 1618531200 and 1618617600) with prices 10.1 and 10000. -/
theorem C8_witness :
    parseCoinDeskData [("2021-04-16", 10.1), ("2021-04-17", 10000)] =
      .ok [{ Timestamp := (parseCoinDeskTime "2021-04-16").getD 0
             Price := 10.1 },
           { Timestamp := (parseCoinDeskTime "2021-04-17").getD 0
             Price := 10000 }] ∧
    (parseCoinDeskTime "2021-04-16").getD 0 = 1618531200 ∧
    (parseCoinDeskTime "2021-04-17").getD 0 = 1618617600 :=
  ⟨by rw [C8_parse_coindesk_pointwise _ (by decide)]; rfl,
   by decide, by decide⟩

/-- Helper: a successful parse of the custom source's records yields one
price per record. -/
theorem parsePriceLines_length (currency : String) :
    ∀ (csvLines : List (List String)) (prices : List Price),
      parsePriceLines currency csvLines = .ok prices →
      prices.length = csvLines.length := by
  intro csvLines
  induction csvLines with
  | nil =>
    intro prices h
    obtain rfl := Except.ok.inj h
    rfl
  | cons line rest ih =>
    intro prices h
    rcases line with _ | ⟨a, _ | ⟨b, _ | ⟨c, tl⟩⟩⟩
    · simp [parsePriceLines] at h
    · simp [parsePriceLines] at h
    · simp only [parsePriceLines] at h
      cases hint : parseInt64 a <;> rw [hint] at h
      · cases h
      · cases hfl : parseFloatQ b <;> rw [hfl] at h
        · cases h
        · cases hrec : parsePriceLines currency rest <;> rw [hrec] at h
          · cases h
          · obtain rfl := Except.ok.inj h
            simp [ih _ hrec]
    · simp [parsePriceLines] at h

/-- C10: `rawPriceData` ignores its start-time and end-time arguments
entirely: any two requested ranges over the same file contents return the
identical result, and a successful read returns the full list - one parsed
record per CSV line, with no range filtering. -/
theorem C10_rawPriceData_ignores_range :
    (∀ (currency : String) (csvLines : List (List String)) (s1 e1 s2 e2 : Int),
      rawPriceData currency csvLines s1 e1 =
        rawPriceData currency csvLines s2 e2) ∧
    (∀ (currency : String) (csvLines : List (List String)) (s e : Int)
        (prices : List Price),
      rawPriceData currency csvLines s e = .ok prices →
      prices.length = csvLines.length) :=
  ⟨fun _ _ _ _ _ _ => rfl,
   fun currency csvLines _ _ prices h =>
     parsePriceLines_length currency csvLines prices h⟩

/-- C10 witness: two different requested ranges over the same two-record
file return the identical result, and the successful read has one price per
record. -/
theorem C10_witness :
    rawPriceData "USD" [["10000", "10.1"], ["2000", "110000"]] 0 100 =
      rawPriceData "USD" [["10000", "10.1"], ["2000", "110000"]] 50 999 ∧
    ((rawPriceData "USD" [["10000", "10.1"], ["2000", "110000"]]
        0 100).toOption.getD []).length = 2 :=
  ⟨C10_rawPriceData_ignores_range.1 "USD"
     [["10000", "10.1"], ["2000", "110000"]] 0 100 50 999,
   C10_rawPriceData_ignores_range.2 "USD"
     [["10000", "10.1"], ["2000", "110000"]] 0 100
     ((rawPriceData "USD" [["10000", "10.1"], ["2000", "110000"]]
        0 100).toOption.getD []) rfl⟩

